import Mathlib

/-!
# focal week view: the per-day occurrence index of `week-view.c`

A shallow embedding of `src/week-view.c` (focal, a calendar application):
the per-day event lists kept by the week view, the code that files an event
under its day of the week (`add_event_from_calendar`), the code that takes it
out again (`week_view_remove_event`), the hit test of `on_press_event`, the
column geometry of `week_view_draw` and the display window built by
`week_view_new`.

`week-view.c` calls into libical (`icaltime_*`, `icalcomponent_*`,
`icalrecur_*`), which is an external library and not part of the repository.
Those functions are collected in the structure `Lib` and every function of
`week-view.c` that calls them takes a `Lib` as its first argument, so the
general theorems hold for whatever the library computes.  A concrete calendar, `ical`, is
given as well; it supplies the inputs at which the theorems are instantiated.

C `int` fields are `Int`: libical keeps `hour` in `0..23`, `minute` in
`0..59`, and the minute sums formed by the code stay far below `2^31`.
C `double` values are `ℚ`; every constant of the file (`50.5`, `30.0`) is a
dyadic rational.
-/

namespace Focal

set_option maxRecDepth 20000
set_option maxHeartbeats 2000000

/-! ## Data model -/

/-- A libical time zone handle (`icaltimezone*`).  In the concrete calendar a
zone is identified with its fixed offset from UTC, in seconds. -/
abbrev icaltimezone := Int

/-- The fields of libical's `struct icaltimetype` read by `week-view.c`. -/
structure icaltimetype where
  year : Int
  month : Int
  day : Int
  hour : Int
  minute : Int
  second : Int
  zone : icaltimezone
  deriving DecidableEq, Repr

/-- The fields of libical's `struct icaldurationtype`. -/
structure icaldurationtype where
  is_neg : Bool
  days : Nat
  weeks : Nat
  hours : Nat
  minutes : Nat
  seconds : Nat
  deriving DecidableEq, Repr

/-- The `icaltime_span` of libical: two absolute times (`time_t`) and a flag. -/
structure icaltime_span where
  start : Int
  end_ : Int
  is_busy : Int
  deriving DecidableEq, Repr

/-- Frequencies of a recurrence rule (the ones the concrete calendar expands). -/
inductive icalrecurrencetype_frequency where
  | DAILY
  | WEEKLY
  deriving DecidableEq, Repr

/-- The part of libical's `struct icalrecurrencetype` the concrete calendar
expands: frequency, interval and count (`0` stands for "no count"). -/
structure icalrecurrencetype where
  freq : icalrecurrencetype_frequency
  interval : Nat
  count : Nat
  deriving DecidableEq, Repr

/-- The handle `CalendarEvent` of `week-view.h`: `v` is the address of the
`icalcomponent`.  Two handles are equal (`memcmp`) iff their bytes are. -/
structure CalendarEvent where
  v : Nat
  deriving DecidableEq, Repr

/-- A calendar handle (`Calendar*`). -/
abbrev Calendar := Nat

/-- The record `struct _EventWidget`, without its `next` pointer: the linked
list headed by `events_week[d]` is a `List EventWidget`, head first. -/
structure EventWidget where
  ev : CalendarEvent
  cal : Calendar
  minutes_from : Int
  minutes_to : Int
  deriving DecidableEq, Repr

/-- The fields of `struct _WeekView` that the indexing, hit-testing and
geometry code reads or writes.  `events_week` is the array of seven list
heads. -/
structure WeekView where
  x : Int
  y : Int
  width : Int
  height : Int
  scroll_pos : ℚ
  events_week : Fin 7 → List EventWidget
  current_year : Int
  current_tz : icaltimezone
  current_view : icaltime_span

/-- The libical functions called by `week-view.c`.  They are not part of the
repository and are taken as parameters.  `icalcomponent_get_rrule` stands for
`icalcomponent_get_first_property (_, ICAL_RRULE_PROPERTY)` followed by
`icalproperty_get_rrule`; `icalrecur_iterator_new r s k` is the value returned
by the call number `k` (from `0`) of `icalrecur_iterator_next` on the iterator
made from `r` and `s`.  `day_of_week_range` is libical's contract that
`icaltime_day_of_week` answers `1` (Sunday) to `7` (Saturday); it is what
keeps `events_week[dow]` inside the array. -/
structure Lib where
  icalcomponent_get_dtstart : Nat → icaltimetype
  icalcomponent_get_dtend : Nat → icaltimetype
  icalcomponent_get_duration : Nat → icaldurationtype
  icalcomponent_get_rrule : Nat → Option icalrecurrencetype
  icaltime_get_timezone : icaltimetype → icaltimezone
  icaltimezone_convert_time : icaltimetype → icaltimezone → icaltimezone → icaltimetype
  icalrecur_iterator_new : icalrecurrencetype → icaltimetype → Nat → icaltimetype
  icaltime_is_null_time : icaltimetype → Bool
  icaltime_add : icaltimetype → icaldurationtype → icaltimetype
  icaltime_span_new : icaltimetype → icaltimetype → Int → icaltime_span
  icaltime_span_overlaps : icaltime_span → icaltime_span → Bool
  icaltime_day_of_week : icaltimetype → Int
  icaltime_day_of_year : icaltimetype → Int
  icaltime_from_day_of_year : Int → Int → icaltimetype
  day_of_week_range : ∀ t, 1 ≤ icaltime_day_of_week t ∧ icaltime_day_of_week t ≤ 7

/-! ## `week-view.c` -/

/-- The macro `SIDEBAR_WIDTH`, `50.5`. -/
def SIDEBAR_WIDTH : ℚ := 101 / 2

/-- The macro `HEADER_HEIGHT`, `50.5`. -/
def HEADER_HEIGHT : ℚ := 101 / 2

/-- The macro `HALFHOUR_HEIGHT`, `30.0`. -/
def HALFHOUR_HEIGHT : ℚ := 30

/-- Conversion of a C `double` to `int`: truncation toward zero. -/
def trunc (q : ℚ) : Int := if 0 ≤ q then ⌊q⌋ else ⌈q⌉

/-- The index `int dow = icaltime_day_of_week(t) - 1` used to subscript
`events_week` (lines 355, 370 and 395). -/
def dow_index (L : Lib) (t : icaltimetype) : Fin 7 :=
  ⟨(L.icaltime_day_of_week t - 1).toNat, by
    have h := L.day_of_week_range t
    omega⟩

/-- Lines 356-362 and 371-377: allocate a record and link it in front of the
list of day `dow`. -/
def push_front (cw : WeekView) (dow : Fin 7) (w : EventWidget) : WeekView :=
  { cw with events_week := Function.update cw.events_week dow (w :: cw.events_week dow) }

/-- The record built at lines 356-360 for the occurrence `next` of a recurring
event. -/
def recur_widget (cal : Calendar) (ce : CalendarEvent) (duration : icaldurationtype)
    (next : icaltimetype) : EventWidget :=
  { ev := ce
    cal := cal
    minutes_from := next.hour * 60 + next.minute
    minutes_to := (next.hour + duration.hours) * 60 + next.minute + duration.minutes }

/-- Lines 329-333 (and 391-394): `DTSTART` of the event, converted from its
own zone to the zone `tz` of the display. -/
def converted_start (L : Lib) (tz : icaltimezone) (ce : CalendarEvent) : icaltimetype :=
  let dtstart := L.icalcomponent_get_dtstart ce.v
  L.icaltimezone_convert_time dtstart (L.icaltime_get_timezone dtstart) tz

/-- Lines 330-334: `DTEND` of the event, converted from the zone of `DTSTART`
to the zone `tz` of the display. -/
def converted_end (L : Lib) (tz : icaltimezone) (ce : CalendarEvent) : icaltimetype :=
  let dtstart := L.icalcomponent_get_dtstart ce.v
  L.icaltimezone_convert_time (L.icalcomponent_get_dtend ce.v)
    (L.icaltime_get_timezone dtstart) tz

/-- Lines 353-354 and 368-369: the span from `t` to `t + duration` overlaps
`current_view`. -/
def overlaps_view (L : Lib) (cw : WeekView) (t : icaltimetype) (duration : icaldurationtype) :
    Bool :=
  L.icaltime_span_overlaps (L.icaltime_span_new t (L.icaltime_add t duration) 0) cw.current_view

/-- The record built at lines 371-375 for an event that does not recur. -/
def single_widget (cal : Calendar) (ce : CalendarEvent) (dtstart dtend : icaltimetype) :
    EventWidget :=
  { ev := ce
    cal := cal
    minutes_from := dtstart.hour * 60 + dtstart.minute
    minutes_to := dtend.hour * 60 + dtend.minute }

/-- The `while` loop of lines 344-364.  `occ k` is what call `k` of
`icalrecur_iterator_next` returns, `i` is the number of calls made so far, and
the first argument bounds the number of iterations still allowed: `none` means
the bound was reached before the loop ended. -/
def recur_loop (L : Lib) (cal : Calendar) (ce : CalendarEvent) (duration : icaldurationtype)
    (occ : Nat → icaltimetype) : Nat → Nat → WeekView → Option WeekView
  | 0, _, _ => none
  | fuel + 1, i, cw =>
    let next := occ i
    if L.icaltime_is_null_time next then some cw
    else if next.year < cw.current_year then recur_loop L cal ce duration occ fuel (i + 1) cw
    else if next.year > cw.current_year then some cw
    else if overlaps_view L cw next duration then
      recur_loop L cal ce duration occ fuel (i + 1)
        (push_front cw (dow_index L next) (recur_widget cal ce duration next))
    else recur_loop L cal ce duration occ fuel (i + 1) cw

/-- Function `add_event_from_calendar` (lines 326-381).  The first argument
bounds the iterations of the recurrence loop; the branch of an event that does
not recur does not use it. -/
def add_event_from_calendar (L : Lib) (fuel : Nat) (cw : WeekView) (cal : Calendar)
    (ce : CalendarEvent) : Option WeekView :=
  let dtstart := converted_start L cw.current_tz ce
  let dtend := converted_end L cw.current_tz ce
  let duration := L.icalcomponent_get_duration ce.v
  match L.icalcomponent_get_rrule ce.v with
  | some recur =>
    recur_loop L cal ce duration (L.icalrecur_iterator_new recur dtstart) fuel 0 cw
  | none =>
    if dtstart.year = cw.current_year then
      if overlaps_view L cw dtstart duration then
        some (push_front cw (dow_index L dtstart) (single_widget cal ce dtstart dtend))
      else some cw
    else some cw

/-- Function `week_view_add_event` (lines 383-387); `gtk_widget_queue_draw`
does not touch the index. -/
def week_view_add_event (L : Lib) (fuel : Nat) (wv : WeekView) (cal : Calendar)
    (vevent : CalendarEvent) : Option WeekView :=
  add_event_from_calendar L fuel wv cal vevent

/-- The loop of lines 396-403 over one list: unlink the first record whose
handle is byte-equal to `ce` and stop. -/
def unlink_first (ce : CalendarEvent) : List EventWidget → List EventWidget
  | [] => []
  | ew :: next => if ew.ev = ce then next else ew :: unlink_first ce next

/-- Function `week_view_remove_event` (lines 389-405). -/
def week_view_remove_event (L : Lib) (wv : WeekView) (ce : CalendarEvent) : WeekView :=
  let dtstart := converted_start L wv.current_tz ce
  let dow := dow_index L dtstart
  let rest := unlink_first ce (wv.events_week dow)
  { wv with events_week := Function.update wv.events_week dow rest }

/-- The search loop of `on_press_event` (lines 186-191) over one list. -/
def find_hit (minutesAt : Int) : List EventWidget → Option EventWidget
  | [] => none
  | tmp :: next =>
    if tmp.minutes_from < minutesAt ∧ minutesAt < tmp.minutes_to then some tmp
    else find_hit minutesAt next

/-- Line 183: `int dow = 7 * (event->x - SIDEBAR_WIDTH) / (wv->width - SIDEBAR_WIDTH)`. -/
def press_dow (wv : WeekView) (x : ℚ) : Int :=
  trunc (7 * (x - SIDEBAR_WIDTH) / ((wv.width : ℚ) - SIDEBAR_WIDTH))

/-- Line 184:
`int minutesAt = (event->y - HEADER_HEIGHT + wv->scroll_pos) * 30 / HALFHOUR_HEIGHT`. -/
def press_minutes (wv : WeekView) (y : ℚ) : Int :=
  trunc ((y - HEADER_HEIGHT + wv.scroll_pos) * 30 / HALFHOUR_HEIGHT)

/-- The `GdkRectangle` of the signal (integer fields). -/
structure GdkRectangle where
  x : Int
  y : Int
  width : Int
  height : Int
  deriving DecidableEq, Repr

/-- What a primary-button press does: nothing (click in the sidebar or the
header), or the signal `event-selected` with the record found, if any. -/
inductive Press where
  | ignored
  | selected (hit : Option (EventWidget × GdkRectangle))
  deriving DecidableEq

/-- Function `on_press_event` for the primary button (lines 178-203).  `none`
stands for a subscript of `events_week` outside `0..6`. -/
def on_press_event (wv : WeekView) (x y : ℚ) : Option Press :=
  if x < SIDEBAR_WIDTH ∨ y < HEADER_HEIGHT then some Press.ignored
  else
    let dow := press_dow wv x
    let minutesAt := press_minutes wv y
    if h : 0 ≤ dow ∧ dow < 7 then
      match find_hit minutesAt (wv.events_week ⟨dow.toNat, by omega⟩) with
      | some tmp =>
        let rect_width := trunc (((wv.width : ℚ) - SIDEBAR_WIDTH) / 7)
        some (Press.selected (some (tmp,
          { width := rect_width
            x := trunc ((dow : ℚ) * (rect_width : ℚ) + SIDEBAR_WIDTH)
            y := trunc (HEADER_HEIGHT +
              ((tmp.minutes_from : ℚ) - wv.scroll_pos) * HALFHOUR_HEIGHT / 30)
            height := trunc
              (((tmp.minutes_to - tmp.minutes_from : Int) : ℚ) * HALFHOUR_HEIGHT / 30) })))
      | none => some (Press.selected none)
    else none

/-- Line 112 of `week_view_draw`:
`const int day_width = (double) (wv->width - SIDEBAR_WIDTH) / num_days`. -/
def day_width (wv : WeekView) : Int :=
  trunc (((wv.width : ℚ) - SIDEBAR_WIDTH) / 7)

/-- Lines 121 and 146 of `week_view_draw`: the left edge of the column of day
`d`, `wv->x + SIDEBAR_WIDTH + d * day_width`. -/
def draw_day_x (wv : WeekView) (d : Int) : ℚ :=
  (wv.x : ℚ) + SIDEBAR_WIDTH + ((d * day_width wv : Int) : ℚ)

/-- Function `on_size_allocate` (lines 263-278), as far as the view itself goes. -/
def on_size_allocate (wv : WeekView) (width height : Int) : WeekView :=
  { wv with width := width, height := height }

/-- Function `week_view_new` (lines 307-324): `today` is the answer of
`icaltime_today ()` and `tz` the zone found for `/etc/localtime`.  The object
comes zero-filled from `g_object_new`, and `week_view_init` sets `scroll_pos`. -/
def week_view_new (L : Lib) (today : icaltimetype) (tz : icaltimezone) : WeekView :=
  { x := 0
    y := 0
    width := 0
    height := 0
    scroll_pos := 410
    events_week := fun _ => []
    current_tz := tz
    current_view := L.icaltime_span_new
      (L.icaltime_from_day_of_year
        (L.icaltime_day_of_year today - L.icaltime_day_of_week today) today.year)
      (L.icaltime_from_day_of_year
        (L.icaltime_day_of_year today - L.icaltime_day_of_week today + 7) today.year)
      0
    current_year := today.year }

/-! ## A concrete calendar

The proleptic Gregorian calendar with the conventions documented for libical:
days of the week numbered from `1` (Sunday), days of the year from `1`, spans
measured in seconds.  Times are read as wall-clock times; a zone is a fixed
offset from UTC. -/

namespace ical

/-- Gregorian leap years. -/
def is_leap_year (year : Int) : Bool :=
  (year % 4 == 0 && year % 100 != 0) || year % 400 == 0

/-- Days of the year that lie before the month number `m + 1` (`m = 12`: the
length of the year). -/
def days_in_year_passed_month (leap : Bool) (m : Int) : Int :=
  let l : Int := if leap then 1 else 0
  if m ≤ 0 then 0
  else if m = 1 then 31
  else if m = 2 then 59 + l
  else if m = 3 then 90 + l
  else if m = 4 then 120 + l
  else if m = 5 then 151 + l
  else if m = 6 then 181 + l
  else if m = 7 then 212 + l
  else if m = 8 then 243 + l
  else if m = 9 then 273 + l
  else if m = 10 then 304 + l
  else if m = 11 then 334 + l
  else 365 + l

/-- Days from 1970-01-01 to the civil date `y-m-d`. -/
def days_from_civil (y m d : Int) : Int :=
  let y1 := if m ≤ 2 then y - 1 else y
  let era := y1 / 400
  let yoe := y1 - era * 400
  let mp := if m > 2 then m - 3 else m + 9
  let doy := (153 * mp + 2) / 5 + d - 1
  let doe := yoe * 365 + yoe / 4 - yoe / 100 + doy
  era * 146097 + doe - 719468

/-- The civil date `(y, m, d)` that lies `z` days after 1970-01-01. -/
def civil_from_days (z : Int) : Int × Int × Int :=
  let z1 := z + 719468
  let era := z1 / 146097
  let doe := z1 - era * 146097
  let yoe := (doe - doe / 1460 + doe / 36524 - doe / 146096) / 365
  let doy := doe - (365 * yoe + yoe / 4 - yoe / 100)
  let mp := (5 * doy + 2) / 153
  let d := doy - (153 * mp + 2) / 5 + 1
  let m := if mp < 10 then mp + 3 else mp - 9
  (if m ≤ 2 then yoe + era * 400 + 1 else yoe + era * 400, m, d)

/-- Seconds from 1970-01-01 00:00:00 to the wall-clock time `t`. -/
def as_timet (t : icaltimetype) : Int :=
  days_from_civil t.year t.month t.day * 86400 + t.hour * 3600 + t.minute * 60 + t.second

/-- The wall-clock time `s` seconds after 1970-01-01 00:00:00, in zone `zone`. -/
def from_timet (s : Int) (zone : icaltimezone) : icaltimetype :=
  let c := civil_from_days (s / 86400)
  let r := s % 86400
  { year := c.1
    month := c.2.1
    day := c.2.2
    hour := r / 3600
    minute := r % 3600 / 60
    second := r % 60
    zone := zone }

/-- The null time of libical: every field zero. -/
def null_time : icaltimetype :=
  { year := 0, month := 0, day := 0, hour := 0, minute := 0, second := 0, zone := 0 }

/-- Model of `icaltime_is_null_time`. -/
def is_null_time (t : icaltimetype) : Bool :=
  t.second + t.minute + t.hour + t.day + t.month + t.year == 0

/-- Model of `icaltime_day_of_week`: `1` is Sunday, `7` is Saturday
(1970-01-01 was a Thursday). -/
def day_of_week (t : icaltimetype) : Int :=
  (days_from_civil t.year t.month t.day + 4) % 7 + 1

/-- Model of `icaltime_day_of_year`: `1` is the first of January. -/
def day_of_year (t : icaltimetype) : Int :=
  days_in_year_passed_month (is_leap_year t.year) (t.month - 1) + t.day

/-- The month (`1..12`) that holds day `doy` of a year. -/
def month_of_doy (leap : Bool) (doy : Int) : Int :=
  if doy > days_in_year_passed_month leap 11 then 12
  else if doy > days_in_year_passed_month leap 10 then 11
  else if doy > days_in_year_passed_month leap 9 then 10
  else if doy > days_in_year_passed_month leap 8 then 9
  else if doy > days_in_year_passed_month leap 7 then 8
  else if doy > days_in_year_passed_month leap 6 then 7
  else if doy > days_in_year_passed_month leap 5 then 6
  else if doy > days_in_year_passed_month leap 4 then 5
  else if doy > days_in_year_passed_month leap 3 then 4
  else if doy > days_in_year_passed_month leap 2 then 3
  else if doy > days_in_year_passed_month leap 1 then 2
  else 1

/-- Model of `icaltime_from_day_of_year`: midnight of day `doy` of `year`; a
`doy` below `1` counts back into the year before, one beyond the end of the
year counts on into the next. -/
def from_day_of_year (doy year : Int) : icaltimetype :=
  let len := days_in_year_passed_month (is_leap_year year) 12
  let year1 := if doy < 1 then year - 1 else if doy > len then year + 1 else year
  let doy1 :=
    if doy < 1 then doy + days_in_year_passed_month (is_leap_year (year - 1)) 12
    else if doy > len then doy - len else doy
  let leap := is_leap_year year1
  let month := month_of_doy leap doy1
  { year := year1
    month := month
    day := doy1 - days_in_year_passed_month leap (month - 1)
    hour := 0, minute := 0, second := 0, zone := 0 }

/-- Length of a duration in seconds, with its sign. -/
def duration_as_int (d : icaldurationtype) : Int :=
  let n : Int := d.seconds + 60 * (d.minutes + 60 * (d.hours + 24 * (d.days + 7 * d.weeks)))
  if d.is_neg then -n else n

/-- Model of `icaldurationtype_from_int`: whole weeks if the length is a
multiple of a week, else days, hours, minutes and seconds. -/
def duration_from_int (t : Int) : icaldurationtype :=
  let n := t.natAbs
  if n % 604800 = 0 then
    { is_neg := decide (t < 0), days := 0, weeks := n / 604800, hours := 0, minutes := 0,
      seconds := 0 }
  else
    { is_neg := decide (t < 0), days := n / 86400, weeks := 0, hours := n % 86400 / 3600,
      minutes := n % 3600 / 60, seconds := n % 60 }

/-- Model of `icaltime_add`. -/
def time_add (t : icaltimetype) (d : icaldurationtype) : icaltimetype :=
  from_timet (as_timet t + duration_as_int d) t.zone

/-- Model of `icaltime_span_new`: the span from `dtstart` to `dtend`. -/
def span_new (dtstart dtend : icaltimetype) (is_busy : Int) : icaltime_span :=
  { start := as_timet dtstart, end_ := as_timet dtend, is_busy := is_busy }

/-- Model of `icaltime_span_overlaps`: the half-open intervals share a piece of
positive length; spans that only touch do not overlap. -/
def span_overlaps (s1 s2 : icaltime_span) : Bool :=
  decide (max s1.start s2.start < min s1.end_ s2.end_)

/-- Model of `icaltimezone_convert_time` for fixed-offset zones. -/
def convert_time (t : icaltimetype) (from_zone to_zone : icaltimezone) : icaltimetype :=
  if from_zone = to_zone then t
  else from_timet (as_timet t - from_zone + to_zone) to_zone

/-- Length in seconds of one step of a rule. -/
def recur_step (r : icalrecurrencetype) : Int :=
  match r.freq with
  | icalrecurrencetype_frequency.DAILY => 86400 * r.interval
  | icalrecurrencetype_frequency.WEEKLY => 604800 * r.interval

/-- Model of the recurrence iterator: occurrence `k` lies `k` steps after the
anchor; after `count` occurrences (if a count is set) the null time follows. -/
def recur_iterator (r : icalrecurrencetype) (dtstart : icaltimetype) (k : Nat) : icaltimetype :=
  if r.count ≠ 0 ∧ r.count ≤ k then null_time
  else from_timet (as_timet dtstart + k * recur_step r) dtstart.zone

/-- What the calendar holds at the address of an `icalcomponent`. -/
structure icalcomponent where
  dtstart : icaltimetype
  dtend : icaltimetype
  rrule : Option icalrecurrencetype
  deriving DecidableEq, Repr

end ical

/-- The concrete calendar as a `Lib`, over the memory `heap` that maps the
address of a component to its contents.  `icalcomponent_get_duration` is the
time from `DTSTART` to `DTEND`. -/
def ical (heap : Nat → ical.icalcomponent) : Lib :=
  { icalcomponent_get_dtstart := fun v => (heap v).dtstart
    icalcomponent_get_dtend := fun v => (heap v).dtend
    icalcomponent_get_duration := fun v =>
      ical.duration_from_int (ical.as_timet (heap v).dtend - ical.as_timet (heap v).dtstart)
    icalcomponent_get_rrule := fun v => (heap v).rrule
    icaltime_get_timezone := fun t => t.zone
    icaltimezone_convert_time := ical.convert_time
    icalrecur_iterator_new := ical.recur_iterator
    icaltime_is_null_time := ical.is_null_time
    icaltime_add := ical.time_add
    icaltime_span_new := ical.span_new
    icaltime_span_overlaps := ical.span_overlaps
    icaltime_day_of_week := ical.day_of_week
    icaltime_day_of_year := ical.day_of_year
    icaltime_from_day_of_year := ical.from_day_of_year
    day_of_week_range := fun t => by
      unfold ical.day_of_week
      omega }

/-! ## Reference definitions for the statements -/

/-- One occurrence of a scan that has no early exit: an occurrence of the year
of the display whose span overlaps the window is filed under its day, any
other occurrence is passed over. -/
def scan_step (L : Lib) (cal : Calendar) (ce : CalendarEvent) (duration : icaldurationtype)
    (cw : WeekView) (next : icaltimetype) : WeekView :=
  if next.year = cw.current_year ∧ overlaps_view L cw next duration = true then
    push_front cw (dow_index L next) (recur_widget cal ce duration next)
  else cw

/-- The scan of a whole list of occurrences, in order, without any early exit. -/
def scan_all (L : Lib) (cal : Calendar) (ce : CalendarEvent) (duration : icaldurationtype)
    (occs : List icaltimetype) (cw : WeekView) : WeekView :=
  occs.foldl (scan_step L cal ce duration) cw

/-- The number of records of the index, over the seven lists, that carry the
handle `ce`. -/
def records_of (wv : WeekView) (ce : CalendarEvent) : Nat :=
  Finset.univ.sum (fun d : Fin 7 => (wv.events_week d).countP (fun w => decide (w.ev = ce)))

/-! ## Sample data -/

/-- A wall-clock time in the zone of the display (offset `0`). -/
def at_time (year month day hour minute : Int) : icaltimetype :=
  { year := year, month := month, day := day, hour := hour, minute := minute, second := 0,
    zone := 0 }

/-- Wednesday, 19 December 2018. -/
def sample_today : icaltimetype := at_time 2018 12 19 0 0

/-- A small calendar.
* `1`: Monday 17 December 2018, 09:00 to 10:00, once.
* `2`: Wednesday 12 December 2018, 14:00 to 15:00, every week.
* `3`: Monday 17 December 2018, 08:00 to 08:30, every day.
* `4`: Monday 18 December 2017, 09:00 to 10:00, once.
* `5`: Friday 14 December 2018, 23:00 to Saturday 01:00, every week.
* `6`: Wednesday 20 December 2017, 14:00 to 15:00, every 26 weeks, six times
  (the last time in June 2020).
* any other address: the null component. -/
def sample_heap (v : Nat) : ical.icalcomponent :=
  if v = 1 then
    { dtstart := at_time 2018 12 17 9 0, dtend := at_time 2018 12 17 10 0, rrule := none }
  else if v = 2 then
    { dtstart := at_time 2018 12 12 14 0, dtend := at_time 2018 12 12 15 0
      rrule := some { freq := icalrecurrencetype_frequency.WEEKLY, interval := 1, count := 0 } }
  else if v = 3 then
    { dtstart := at_time 2018 12 17 8 0, dtend := at_time 2018 12 17 8 30
      rrule := some { freq := icalrecurrencetype_frequency.DAILY, interval := 1, count := 0 } }
  else if v = 4 then
    { dtstart := at_time 2017 12 18 9 0, dtend := at_time 2017 12 18 10 0, rrule := none }
  else if v = 5 then
    { dtstart := at_time 2018 12 14 23 0, dtend := at_time 2018 12 15 1 0
      rrule := some { freq := icalrecurrencetype_frequency.WEEKLY, interval := 1, count := 0 } }
  else if v = 6 then
    { dtstart := at_time 2017 12 20 14 0, dtend := at_time 2017 12 20 15 0
      rrule := some { freq := icalrecurrencetype_frequency.WEEKLY, interval := 26, count := 6 } }
  else { dtstart := ical.null_time, dtend := ical.null_time, rrule := none }

/-- The concrete calendar over `sample_heap`. -/
def sample_lib : Lib := ical sample_heap

/-- The week view made on `sample_today`, before any event is added. -/
def sample_view : WeekView := week_view_new sample_lib sample_today 0

/-- The sample view holding one record of event `1`, 09:00 to 10:00, in the
list of Monday. -/
def monday_view : WeekView :=
  push_front sample_view 1 { ev := { v := 1 }, cal := 7, minutes_from := 540, minutes_to := 600 }

/-- The sample view laid out 113 pixels wide and 400 pixels high. -/
def narrow_view : WeekView := on_size_allocate sample_view 113 400

/-- The narrow view holding one record, 09:00 to 10:00, in the list of
Tuesday. -/
def tuesday_view : WeekView :=
  push_front narrow_view 2 { ev := { v := 9 }, cal := 7, minutes_from := 540, minutes_to := 600 }

/-! # Theorems -/

/-! ## Lists of the index -/

theorem push_front_same (cw : WeekView) (d : Fin 7) (w : EventWidget) :
    (push_front cw d w).events_week d = w :: cw.events_week d := by
  simp [push_front]

theorem push_front_other (cw : WeekView) (d d' : Fin 7) (w : EventWidget) (h : d' ≠ d) :
    (push_front cw d w).events_week d' = cw.events_week d' := by
  simp [push_front, Function.update_noteq h]

theorem push_front_events_ne (cw : WeekView) (d : Fin 7) (w : EventWidget) :
    (push_front cw d w).events_week ≠ cw.events_week := by
  intro h
  have h1 := congrFun h d
  rw [push_front_same] at h1
  have h2 := congrArg List.length h1
  simp at h2

theorem unlink_first_eq_eraseP (ce : CalendarEvent) (l : List EventWidget) :
    unlink_first ce l = l.eraseP (fun w => decide (w.ev = ce)) := by
  induction l with
  | nil => rfl
  | cons w rest ih =>
    by_cases h : w.ev = ce
    · simp [unlink_first, h]
    · simp [unlink_first, h, ih]

theorem unlink_first_absent (ce : CalendarEvent) (l : List EventWidget)
    (h : ∀ w ∈ l, w.ev ≠ ce) : unlink_first ce l = l := by
  induction l with
  | nil => rfl
  | cons w rest ih =>
    have hw : w.ev ≠ ce := h w (List.mem_cons_self _ _)
    have hrest : ∀ u ∈ rest, u.ev ≠ ce := fun u hu => h u (List.mem_cons_of_mem _ hu)
    simp [unlink_first, hw, ih hrest]

theorem unlink_first_split (ce : CalendarEvent) (pre post : List EventWidget) (w : EventWidget)
    (hw : w.ev = ce) (hpre : ∀ u ∈ pre, u.ev ≠ ce) :
    unlink_first ce (pre ++ w :: post) = pre ++ post := by
  induction pre with
  | nil => simp [unlink_first, hw]
  | cons u rest ih =>
    have hu : u.ev ≠ ce := hpre u (List.mem_cons_self _ _)
    have hrest : ∀ v ∈ rest, v.ev ≠ ce := fun v hv => hpre v (List.mem_cons_of_mem _ hv)
    simp [unlink_first, hu, ih hrest]

theorem remove_event_same (L : Lib) (wv : WeekView) (ce : CalendarEvent) :
    (week_view_remove_event L wv ce).events_week (dow_index L (converted_start L wv.current_tz ce))
      = unlink_first ce (wv.events_week (dow_index L (converted_start L wv.current_tz ce))) := by
  simp [week_view_remove_event]

theorem remove_event_other (L : Lib) (wv : WeekView) (ce : CalendarEvent) (d : Fin 7)
    (h : d ≠ dow_index L (converted_start L wv.current_tz ce)) :
    (week_view_remove_event L wv ce).events_week d = wv.events_week d := by
  simp [week_view_remove_event, Function.update_noteq h]

theorem remove_event_noop (L : Lib) (wv : WeekView) (ce : CalendarEvent)
    (h : ∀ w ∈ wv.events_week (dow_index L (converted_start L wv.current_tz ce)), w.ev ≠ ce) :
    week_view_remove_event L wv ce = wv := by
  simp [week_view_remove_event, unlink_first_absent ce _ h]

/-- C1: for an event without a recurrence rule, `add_event_from_calendar`
returns for every iteration bound, and it changes the index iff the span of
the converted start overlaps the display window and the year of the converted
start is `current_year`.  In that case the list of day
`icaltime_day_of_week (start) - 1` gets one new record in front, with
`minutes_from = start.hour * 60 + start.minute` and
`minutes_to = end.hour * 60 + end.minute` taken from the converted end, and
the other lists stay as they were; in the other case the view is unchanged. -/
theorem add_event_non_recurring (L : Lib) (fuel : Nat) (cw : WeekView) (cal : Calendar)
    (ce : CalendarEvent) (hr : L.icalcomponent_get_rrule ce.v = none) :
    ∃ cw', add_event_from_calendar L fuel cw cal ce = some cw' ∧
      (cw'.events_week ≠ cw.events_week ↔
        (overlaps_view L cw (converted_start L cw.current_tz ce)
            (L.icalcomponent_get_duration ce.v) = true ∧
          (converted_start L cw.current_tz ce).year = cw.current_year)) ∧
      ((overlaps_view L cw (converted_start L cw.current_tz ce)
            (L.icalcomponent_get_duration ce.v) = true ∧
          (converted_start L cw.current_tz ce).year = cw.current_year) →
        cw'.events_week (dow_index L (converted_start L cw.current_tz ce)) =
            { ev := ce
              cal := cal
              minutes_from := (converted_start L cw.current_tz ce).hour * 60 +
                (converted_start L cw.current_tz ce).minute
              minutes_to := (converted_end L cw.current_tz ce).hour * 60 +
                (converted_end L cw.current_tz ce).minute } ::
              cw.events_week (dow_index L (converted_start L cw.current_tz ce)) ∧
          ∀ d, d ≠ dow_index L (converted_start L cw.current_tz ce) →
            cw'.events_week d = cw.events_week d) ∧
      (¬ (overlaps_view L cw (converted_start L cw.current_tz ce)
            (L.icalcomponent_get_duration ce.v) = true ∧
          (converted_start L cw.current_tz ce).year = cw.current_year) → cw' = cw) := by
  by_cases hy : (converted_start L cw.current_tz ce).year = cw.current_year
  · by_cases ho : overlaps_view L cw (converted_start L cw.current_tz ce)
        (L.icalcomponent_get_duration ce.v) = true
    · refine ⟨push_front cw (dow_index L (converted_start L cw.current_tz ce))
        (single_widget cal ce (converted_start L cw.current_tz ce)
          (converted_end L cw.current_tz ce)), ?_, ?_, ?_, ?_⟩
      · simp [add_event_from_calendar, hr, hy, ho]
      · exact ⟨fun _ => ⟨ho, hy⟩, fun _ => push_front_events_ne _ _ _⟩
      · intro _
        exact ⟨push_front_same _ _ _, fun d hd => push_front_other _ _ _ _ hd⟩
      · intro hn
        exact absurd ⟨ho, hy⟩ hn
    · refine ⟨cw, ?_, ?_, ?_, ?_⟩
      · simp [add_event_from_calendar, hr, hy, ho]
      · exact ⟨fun h => absurd rfl h, fun h => absurd h.1 ho⟩
      · intro h
        exact absurd h.1 ho
      · intro _
        rfl
  · refine ⟨cw, ?_, ?_, ?_, ?_⟩
    · simp [add_event_from_calendar, hr, hy]
    · exact ⟨fun h => absurd rfl h, fun h => absurd h.2 hy⟩
    · intro h
      exact absurd h.2 hy
    · intro _
      rfl

/-- Witness of C1 and the scenario of the specification: a Monday event from
09:00 to 10:00 inside the window is filed as the one record of day `1`, with
minutes `540` and `600`. -/
theorem add_event_non_recurring_witness :
    sample_lib.icalcomponent_get_rrule 1 = none ∧
    (∃ cw', add_event_from_calendar sample_lib 0 sample_view 7 { v := 1 } = some cw' ∧
      cw'.events_week 1 = [{ ev := { v := 1 }, cal := 7, minutes_from := 540, minutes_to := 600 }] ∧
      ∀ d, d ≠ 1 → cw'.events_week d = []) := by
  have hr : sample_lib.icalcomponent_get_rrule 1 = none := by decide
  refine ⟨hr, ?_⟩
  obtain ⟨cw', hadd, _, hin, _⟩ :=
    add_event_non_recurring sample_lib 0 sample_view 7 { v := 1 } hr
  have hw : overlaps_view sample_lib sample_view
      (converted_start sample_lib sample_view.current_tz { v := 1 })
      (sample_lib.icalcomponent_get_duration 1) = true ∧
      (converted_start sample_lib sample_view.current_tz { v := 1 }).year
        = sample_view.current_year := by decide
  obtain ⟨h1, h2⟩ := hin hw
  refine ⟨cw', hadd, ?_, ?_⟩
  · have hd : dow_index sample_lib (converted_start sample_lib sample_view.current_tz { v := 1 })
        = 1 := by decide
    rw [hd] at h1
    rw [h1]
    decide
  · intro d hd
    have hd1 : dow_index sample_lib (converted_start sample_lib sample_view.current_tz { v := 1 })
        = 1 := by decide
    rw [hd1] at h2
    rw [h2 d hd]
    rfl

/-- C3: `week_view_remove_event` takes `d = icaltime_day_of_week (start) - 1`
of the converted start and replaces the list of day `d` by that list without
its first record whose handle equals the event (the records before and after
it keep their order); the other six lists are unchanged; and when no record of
the index carries the handle, the view is unchanged. -/
theorem remove_event_first_match (L : Lib) (wv : WeekView) (ce : CalendarEvent) :
    (week_view_remove_event L wv ce).events_week
        (dow_index L (converted_start L wv.current_tz ce)) =
      (wv.events_week (dow_index L (converted_start L wv.current_tz ce))).eraseP
        (fun w => decide (w.ev = ce)) ∧
    (∀ pre w post,
      wv.events_week (dow_index L (converted_start L wv.current_tz ce)) = pre ++ w :: post →
      w.ev = ce → (∀ u ∈ pre, u.ev ≠ ce) →
      (week_view_remove_event L wv ce).events_week
        (dow_index L (converted_start L wv.current_tz ce)) = pre ++ post) ∧
    (∀ d, d ≠ dow_index L (converted_start L wv.current_tz ce) →
      (week_view_remove_event L wv ce).events_week d = wv.events_week d) ∧
    ((∀ d, ∀ w ∈ wv.events_week d, w.ev ≠ ce) → week_view_remove_event L wv ce = wv) := by
  refine ⟨?_, ?_, ?_, ?_⟩
  · rw [remove_event_same, unlink_first_eq_eraseP]
  · intro pre w post hsplit hw hpre
    rw [remove_event_same, hsplit, unlink_first_split ce pre post w hw hpre]
  · intro d hd
    exact remove_event_other L wv ce d hd
  · intro h
    exact remove_event_noop L wv ce (h _)

/-! ## Hit test -/

theorem find_hit_eq_find (m : Int) (l : List EventWidget) :
    find_hit m l = l.find? (fun w => decide (w.minutes_from < m ∧ m < w.minutes_to)) := by
  induction l with
  | nil => rfl
  | cons w rest ih =>
    by_cases h : w.minutes_from < m ∧ m < w.minutes_to
    · simp [find_hit, h]
    · simp only [find_hit, h, if_false, ih]
      rw [List.find?_cons_of_neg]
      simpa using h

/-- Counterexample to C4 as stated: the list of Monday holds a record from
minute `540` to minute `600`; minute `540` lies in the half-open interval
`[540, 600)`, and the lookup at minute `540` finds nothing. -/
theorem find_hit_misses_first_minute :
    monday_view.events_week 1 =
      [{ ev := { v := 1 }, cal := 7, minutes_from := 540, minutes_to := 600 }] ∧
    ((540 : Int) ≤ 540 ∧ (540 : Int) < 600) ∧
    find_hit 540 (monday_view.events_week 1) = none := by
  decide

/-- C4, amended: for every index, day `d` and minute `m`, the search loop of
`on_press_event` returns the first record of the list of day `d`, in list
order, with `minutes_from < m < minutes_to` (both bounds strict), and it
returns nothing iff no record of that day satisfies this. -/
theorem find_hit_first_strict (wv : WeekView) (d : Fin 7) (m : Int) :
    find_hit m (wv.events_week d) =
      (wv.events_week d).find? (fun w => decide (w.minutes_from < m ∧ m < w.minutes_to)) ∧
    (∀ w, find_hit m (wv.events_week d) = some w →
      (w.minutes_from < m ∧ m < w.minutes_to) ∧
      ∃ pre post, wv.events_week d = pre ++ w :: post ∧
        ∀ u ∈ pre, ¬ (u.minutes_from < m ∧ m < u.minutes_to)) ∧
    (find_hit m (wv.events_week d) = none ↔
      ∀ w ∈ wv.events_week d, ¬ (w.minutes_from < m ∧ m < w.minutes_to)) := by
  refine ⟨find_hit_eq_find m _, ?_, ?_⟩
  · intro w hw
    rw [find_hit_eq_find] at hw
    obtain ⟨h1, pre, post, hsplit, hpre⟩ := List.find?_eq_some.mp hw
    refine ⟨by simpa using h1, pre, post, hsplit, ?_⟩
    intro u hu hcond
    have hneg := hpre u hu
    simp [hcond] at hneg
  · rw [find_hit_eq_find, List.find?_eq_none]
    simp

/-! ## The recurrence loop -/

theorem overlaps_view_push_front (L : Lib) (cw : WeekView) (d : Fin 7) (w : EventWidget)
    (t : icaltimetype) (duration : icaldurationtype) :
    overlaps_view L (push_front cw d w) t duration = overlaps_view L cw t duration := rfl

theorem scan_step_year (L : Lib) (cal : Calendar) (ce : CalendarEvent)
    (duration : icaldurationtype) (cw : WeekView) (next : icaltimetype) :
    (scan_step L cal ce duration cw next).current_year = cw.current_year := by
  unfold scan_step
  split <;> rfl

theorem scan_step_view (L : Lib) (cal : Calendar) (ce : CalendarEvent)
    (duration : icaldurationtype) (cw : WeekView) (next : icaltimetype) :
    (scan_step L cal ce duration cw next).current_view = cw.current_view := by
  unfold scan_step
  split <;> rfl

theorem scan_step_other_year (L : Lib) (cal : Calendar) (ce : CalendarEvent)
    (duration : icaldurationtype) (cw : WeekView) (next : icaltimetype)
    (h : next.year ≠ cw.current_year) : scan_step L cal ce duration cw next = cw := by
  simp [scan_step, h]

theorem scan_all_year (L : Lib) (cal : Calendar) (ce : CalendarEvent)
    (duration : icaldurationtype) (occs : List icaltimetype) (cw : WeekView) :
    (scan_all L cal ce duration occs cw).current_year = cw.current_year := by
  induction occs generalizing cw with
  | nil => rfl
  | cons t rest ih =>
    simp only [scan_all, List.foldl_cons] at ih ⊢
    rw [ih, scan_step_year]

theorem scan_all_append (L : Lib) (cal : Calendar) (ce : CalendarEvent)
    (duration : icaldurationtype) (xs ys : List icaltimetype) (cw : WeekView) :
    scan_all L cal ce duration (xs ++ ys) cw =
      scan_all L cal ce duration ys (scan_all L cal ce duration xs cw) := by
  simp [scan_all, List.foldl_append]

theorem scan_all_other_years (L : Lib) (cal : Calendar) (ce : CalendarEvent)
    (duration : icaldurationtype) (occs : List icaltimetype) (cw : WeekView)
    (h : ∀ t ∈ occs, t.year ≠ cw.current_year) : scan_all L cal ce duration occs cw = cw := by
  induction occs with
  | nil => rfl
  | cons t rest ih =>
    have ht : t.year ≠ cw.current_year := h t (List.mem_cons_self _ _)
    have hrest : ∀ u ∈ rest, u.year ≠ cw.current_year :=
      fun u hu => h u (List.mem_cons_of_mem _ hu)
    simp only [scan_all, List.foldl_cons] at ih ⊢
    rw [scan_step_other_year L cal ce duration cw t ht]
    exact ih hrest

/-- The lists after a scan: the records of the occurrences kept, the latest
in front, before what the list held. -/
theorem scan_all_events (L : Lib) (cal : Calendar) (ce : CalendarEvent)
    (duration : icaldurationtype) (occs : List icaltimetype) (cw : WeekView) (d : Fin 7) :
    (scan_all L cal ce duration occs cw).events_week d =
      ((occs.filter (fun t => decide (t.year = cw.current_year ∧
          overlaps_view L cw t duration = true ∧ dow_index L t = d))).map
        (recur_widget cal ce duration)).reverse ++ cw.events_week d := by
  induction occs generalizing cw with
  | nil => simp [scan_all]
  | cons t rest ih =>
    have hstep := ih (scan_step L cal ce duration cw t)
    simp only [scan_all, List.foldl_cons] at hstep ⊢
    rw [hstep, scan_step_year]
    have hov : ∀ u, overlaps_view L (scan_step L cal ce duration cw t) u duration
        = overlaps_view L cw u duration := by
      intro u
      unfold scan_step
      split <;> rfl
    simp only [hov]
    by_cases hk : t.year = cw.current_year ∧ overlaps_view L cw t duration = true
    · by_cases hd : dow_index L t = d
      · have hcond : (t.year = cw.current_year ∧ overlaps_view L cw t duration = true ∧
            dow_index L t = d) := ⟨hk.1, hk.2, hd⟩
        rw [List.filter_cons_of_pos (by simpa using hcond)]
        simp only [scan_step, hk, and_self, if_true]
        rw [← hd, push_front_same]
        simp
      · have hcond : ¬ (t.year = cw.current_year ∧ overlaps_view L cw t duration = true ∧
            dow_index L t = d) := fun hc => hd hc.2.2
        rw [List.filter_cons_of_neg (by simpa using hcond)]
        simp only [scan_step, hk, and_self, if_true]
        rw [push_front_other _ _ _ _ (Ne.symm hd)]
    · have hcond : ¬ (t.year = cw.current_year ∧ overlaps_view L cw t duration = true ∧
          dow_index L t = d) := fun hc => hk ⟨hc.1, hc.2.1⟩
      rw [List.filter_cons_of_neg (by simpa using hcond)]
      simp only [scan_step, hk, if_false]

/-- The loop, started at call `i` with the first stop `k` calls later, ends
within `k + 1` iterations and does what the scan of those `k` occurrences
does. -/
theorem recur_loop_eq_scan (L : Lib) (cal : Calendar) (ce : CalendarEvent)
    (duration : icaldurationtype) (occ : Nat → icaltimetype) (k : Nat) :
    ∀ (i fuel : Nat) (cw : WeekView),
      (∀ j, i ≤ j → j < i + k →
        L.icaltime_is_null_time (occ j) = false ∧ (occ j).year ≤ cw.current_year) →
      (L.icaltime_is_null_time (occ (i + k)) = true ∨ (occ (i + k)).year > cw.current_year) →
      k < fuel →
      recur_loop L cal ce duration occ fuel i cw =
        some (scan_all L cal ce duration ((List.range' i k).map occ) cw) := by
  induction k with
  | zero =>
    intro i fuel cw _ hstop hfuel
    obtain ⟨f, rfl⟩ : ∃ f, fuel = f + 1 := ⟨fuel - 1, by omega⟩
    simp only [Nat.add_zero] at hstop
    by_cases hnull : L.icaltime_is_null_time (occ i) = true
    · simp [recur_loop, hnull, scan_all]
    · have hgt : (occ i).year > cw.current_year := by
        rcases hstop with h | h
        · exact absurd h hnull
        · exact h
      have hnlt : ¬ (occ i).year < cw.current_year := by omega
      simp [recur_loop, hnull, hnlt, hgt, scan_all]
  | succ k ih =>
    intro i fuel cw hrun hstop hfuel
    obtain ⟨f, rfl⟩ : ∃ f, fuel = f + 1 := ⟨fuel - 1, by omega⟩
    have hi := hrun i (Nat.le_refl i) (by omega)
    have hnull : ¬ L.icaltime_is_null_time (occ i) = true := by simp [hi.1]
    have hrun' : ∀ cw' : WeekView, cw'.current_year = cw.current_year →
        ∀ j, i + 1 ≤ j → j < i + 1 + k →
          L.icaltime_is_null_time (occ j) = false ∧ (occ j).year ≤ cw'.current_year := by
      intro cw' hy j h1 h2
      rw [hy]
      exact hrun j (by omega) (by omega)
    have hstop' : ∀ cw' : WeekView, cw'.current_year = cw.current_year →
        (L.icaltime_is_null_time (occ (i + 1 + k)) = true ∨
          (occ (i + 1 + k)).year > cw'.current_year) := by
      intro cw' hy
      rw [hy]
      have he : i + 1 + k = i + (k + 1) := by omega
      rw [he]
      exact hstop
    have hlist : (List.range' i (k + 1)).map occ = occ i :: (List.range' (i + 1) k).map occ := by
      simp [List.range'_succ]
    rw [hlist]
    simp only [scan_all, List.foldl_cons]
    by_cases hlt : (occ i).year < cw.current_year
    · have hne : (occ i).year ≠ cw.current_year := by omega
      rw [scan_step_other_year L cal ce duration cw _ hne]
      have hrec := ih (i + 1) f cw (hrun' cw rfl) (hstop' cw rfl) (by omega)
      simp only [scan_all] at hrec
      simp [recur_loop, hnull, hlt, hrec]
    · have heq : (occ i).year = cw.current_year := by omega
      have hngt : ¬ (occ i).year > cw.current_year := by omega
      by_cases hov : overlaps_view L cw (occ i) duration = true
      · have hrec := ih (i + 1) f
          (push_front cw (dow_index L (occ i)) (recur_widget cal ce duration (occ i)))
          (hrun' _ rfl) (hstop' _ rfl) (by omega)
        simp only [scan_all] at hrec
        simp [recur_loop, hnull, hlt, hngt, hov, hrec, scan_step, heq]
      · have hrec := ih (i + 1) f cw (hrun' cw rfl) (hstop' cw rfl) (by omega)
        simp only [scan_all] at hrec
        simp [recur_loop, hnull, hlt, hngt, hov, hrec, scan_step, heq]

/-- C6: let the years of the occurrences returned before the null time be
non-decreasing, and let some call `m` return the null time or a time of a year
after `current_year`.  Then there is a first such call `n ≤ m`: the calls
before it return times of `current_year` or of earlier years (those of
earlier years are passed over, the loop goes on), and for every iteration
bound above `n` the add returns.  Its result is the result of scanning,
without any early exit, every prefix of the sequence that reaches at least to
call `n` and holds no null time, the whole sequence included; and every record
that was not in the index before comes from an occurrence of `current_year`
returned before call `n`. -/
theorem year_filter_early_exit (L : Lib) (cw : WeekView) (cal : Calendar)
    (ce : CalendarEvent) (r : icalrecurrencetype) (m : Nat)
    (hr : L.icalcomponent_get_rrule ce.v = some r)
    (hmono : ∀ i j, i ≤ j →
      L.icaltime_is_null_time
        (L.icalrecur_iterator_new r (converted_start L cw.current_tz ce) j) = false →
      (L.icalrecur_iterator_new r (converted_start L cw.current_tz ce) i).year ≤
        (L.icalrecur_iterator_new r (converted_start L cw.current_tz ce) j).year)
    (hlate : L.icaltime_is_null_time
          (L.icalrecur_iterator_new r (converted_start L cw.current_tz ce) m) = true ∨
        (L.icalrecur_iterator_new r (converted_start L cw.current_tz ce) m).year
          > cw.current_year) :
    ∃ n, n ≤ m ∧
      (∀ j, j < n →
        L.icaltime_is_null_time
            (L.icalrecur_iterator_new r (converted_start L cw.current_tz ce) j) = false ∧
          (L.icalrecur_iterator_new r (converted_start L cw.current_tz ce) j).year
            ≤ cw.current_year) ∧
      (L.icaltime_is_null_time
            (L.icalrecur_iterator_new r (converted_start L cw.current_tz ce) n) = true ∨
          (L.icalrecur_iterator_new r (converted_start L cw.current_tz ce) n).year
            > cw.current_year) ∧
      ∀ fuel, n < fuel →
        ∃ cw', add_event_from_calendar L fuel cw cal ce = some cw' ∧
          (∀ N, n ≤ N →
            (∀ j, j < N → L.icaltime_is_null_time
              (L.icalrecur_iterator_new r (converted_start L cw.current_tz ce) j) = false) →
            cw' = scan_all L cal ce (L.icalcomponent_get_duration ce.v)
              ((List.range N).map
                (L.icalrecur_iterator_new r (converted_start L cw.current_tz ce))) cw) ∧
          (∀ d w, w ∈ cw'.events_week d →
            w ∈ cw.events_week d ∨
            ∃ j, j < n ∧
              (L.icalrecur_iterator_new r (converted_start L cw.current_tz ce) j).year
                = cw.current_year ∧
              w = recur_widget cal ce (L.icalcomponent_get_duration ce.v)
                (L.icalrecur_iterator_new r (converted_start L cw.current_tz ce) j)) := by
  classical
  have hex : ∃ k, L.icaltime_is_null_time
        (L.icalrecur_iterator_new r (converted_start L cw.current_tz ce) k) = true ∨
      (L.icalrecur_iterator_new r (converted_start L cw.current_tz ce) k).year
        > cw.current_year := ⟨m, hlate⟩
  refine ⟨Nat.find hex, Nat.find_min' hex hlate, ?_, Nat.find_spec hex, ?_⟩
  · intro j hj
    have hnot := Nat.find_min hex hj
    constructor
    · cases hb : L.icaltime_is_null_time
          (L.icalrecur_iterator_new r (converted_start L cw.current_tz ce) j)
      · rfl
      · exact absurd (Or.inl hb) hnot
    · have h2 : ¬ (L.icalrecur_iterator_new r (converted_start L cw.current_tz ce) j).year
          > cw.current_year := fun h => hnot (Or.inr h)
      omega
  · intro fuel hfuel
    have hrun : ∀ j, j < Nat.find hex →
        L.icaltime_is_null_time
            (L.icalrecur_iterator_new r (converted_start L cw.current_tz ce) j) = false ∧
          (L.icalrecur_iterator_new r (converted_start L cw.current_tz ce) j).year
            ≤ cw.current_year := by
      intro j hj
      have hnot := Nat.find_min hex hj
      constructor
      · cases hb : L.icaltime_is_null_time
            (L.icalrecur_iterator_new r (converted_start L cw.current_tz ce) j)
        · rfl
        · exact absurd (Or.inl hb) hnot
      · have h2 : ¬ (L.icalrecur_iterator_new r (converted_start L cw.current_tz ce) j).year
            > cw.current_year := fun h => hnot (Or.inr h)
        omega
    have hloop := recur_loop_eq_scan L cal ce (L.icalcomponent_get_duration ce.v)
      (L.icalrecur_iterator_new r (converted_start L cw.current_tz ce)) (Nat.find hex) 0 fuel cw
      (fun j _ hj => hrun j (by omega)) (by simpa using Nat.find_spec hex) hfuel
    refine ⟨scan_all L cal ce (L.icalcomponent_get_duration ce.v)
      ((List.range' 0 (Nat.find hex)).map
        (L.icalrecur_iterator_new r (converted_start L cw.current_tz ce))) cw, ?_, ?_, ?_⟩
    · simp only [add_event_from_calendar, hr]
      rw [hloop]
    · intro N hN hnn
      have hsplit : List.range N =
          List.range' 0 (Nat.find hex) ++ List.range' (Nat.find hex) (N - Nat.find hex) := by
        have happ := List.range'_append_1 0 (Nat.find hex) (N - Nat.find hex)
        rw [Nat.zero_add] at happ
        rw [List.range_eq_range', happ]
        congr 1
        omega
      rw [hsplit, List.map_append, scan_all_append]
      symm
      apply scan_all_other_years
      intro t ht
      rw [scan_all_year]
      obtain ⟨j, hj, rfl⟩ := List.mem_map.mp ht
      have hjr := List.mem_range'_1.mp hj
      have hnltN : Nat.find hex < N := by omega
      have hn_nonnull := hnn (Nat.find hex) hnltN
      have hgt : (L.icalrecur_iterator_new r (converted_start L cw.current_tz ce)
          (Nat.find hex)).year > cw.current_year := by
        rcases Nat.find_spec hex with h | h
        · rw [hn_nonnull] at h
          exact absurd h (by simp)
        · exact h
      have hle := hmono (Nat.find hex) j hjr.1 (hnn j (by omega))
      omega
    · intro d w hw
      rw [scan_all_events] at hw
      rcases List.mem_append.mp hw with h | h
      · right
        rw [List.mem_reverse] at h
        obtain ⟨t, ht, rfl⟩ := List.mem_map.mp h
        obtain ⟨htm, htc⟩ := List.mem_filter.mp ht
        obtain ⟨j, hj, rfl⟩ := List.mem_map.mp htm
        have hjr := List.mem_range'_1.mp hj
        have hc := of_decide_eq_true htc
        exact ⟨j, by omega, hc.1, rfl⟩
      · exact Or.inl h

/-- Witness of C6: event `6` of the sample calendar recurs every 26 weeks, six
times, from December 2017 to June 2020, and the display shows a week of
December 2018.  With an iteration bound of `4` the add returns, and its result
is the scan of all six occurrences: one record, for Wednesday 19 December
2018, and none for the occurrences of 2019 and 2020. -/
theorem year_filter_early_exit_witness :
    sample_lib.icalcomponent_get_rrule 6 =
      some { freq := icalrecurrencetype_frequency.WEEKLY, interval := 26, count := 6 } ∧
    (∀ i j, i ≤ j →
      sample_lib.icaltime_is_null_time
        (sample_lib.icalrecur_iterator_new
          { freq := icalrecurrencetype_frequency.WEEKLY, interval := 26, count := 6 }
          (converted_start sample_lib sample_view.current_tz { v := 6 }) j) = false →
      (sample_lib.icalrecur_iterator_new
          { freq := icalrecurrencetype_frequency.WEEKLY, interval := 26, count := 6 }
          (converted_start sample_lib sample_view.current_tz { v := 6 }) i).year ≤
        (sample_lib.icalrecur_iterator_new
          { freq := icalrecurrencetype_frequency.WEEKLY, interval := 26, count := 6 }
          (converted_start sample_lib sample_view.current_tz { v := 6 }) j).year) ∧
    (sample_lib.icalrecur_iterator_new
        { freq := icalrecurrencetype_frequency.WEEKLY, interval := 26, count := 6 }
        (converted_start sample_lib sample_view.current_tz { v := 6 }) 3).year
      > sample_view.current_year ∧
    ∃ cw', add_event_from_calendar sample_lib 4 sample_view 7 { v := 6 } = some cw' ∧
      cw' = scan_all sample_lib 7 { v := 6 } (sample_lib.icalcomponent_get_duration 6)
        ((List.range 6).map (sample_lib.icalrecur_iterator_new
          { freq := icalrecurrencetype_frequency.WEEKLY, interval := 26, count := 6 }
          (converted_start sample_lib sample_view.current_tz { v := 6 }))) sample_view ∧
      cw'.events_week 3 =
        [{ ev := { v := 6 }, cal := 7, minutes_from := 840, minutes_to := 900 }] := by
  have hr : sample_lib.icalcomponent_get_rrule 6 =
      some { freq := icalrecurrencetype_frequency.WEEKLY, interval := 26, count := 6 } := by
    decide
  have hcount : ∀ j, 6 ≤ j →
      sample_lib.icaltime_is_null_time
        (sample_lib.icalrecur_iterator_new
          { freq := icalrecurrencetype_frequency.WEEKLY, interval := 26, count := 6 }
          (converted_start sample_lib sample_view.current_tz { v := 6 }) j) = true := by
    intro j hj
    show ical.is_null_time (ical.recur_iterator _ _ j) = true
    unfold ical.recur_iterator
    rw [if_pos ⟨by decide, hj⟩]
    decide
  have hmono : ∀ i j, i ≤ j →
      sample_lib.icaltime_is_null_time
        (sample_lib.icalrecur_iterator_new
          { freq := icalrecurrencetype_frequency.WEEKLY, interval := 26, count := 6 }
          (converted_start sample_lib sample_view.current_tz { v := 6 }) j) = false →
      (sample_lib.icalrecur_iterator_new
          { freq := icalrecurrencetype_frequency.WEEKLY, interval := 26, count := 6 }
          (converted_start sample_lib sample_view.current_tz { v := 6 }) i).year ≤
        (sample_lib.icalrecur_iterator_new
          { freq := icalrecurrencetype_frequency.WEEKLY, interval := 26, count := 6 }
          (converted_start sample_lib sample_view.current_tz { v := 6 }) j).year := by
    intro i j hij hnn
    by_cases hj : j < 6
    · have hfin : ∀ b, b < 6 → ∀ a, a ≤ b →
          (sample_lib.icalrecur_iterator_new
              { freq := icalrecurrencetype_frequency.WEEKLY, interval := 26, count := 6 }
              (converted_start sample_lib sample_view.current_tz { v := 6 }) a).year ≤
            (sample_lib.icalrecur_iterator_new
              { freq := icalrecurrencetype_frequency.WEEKLY, interval := 26, count := 6 }
              (converted_start sample_lib sample_view.current_tz { v := 6 }) b).year := by
        decide
      exact hfin j hj i hij
    · rw [hcount j (by omega)] at hnn
      exact absurd hnn (by simp)
  have hlate : (sample_lib.icalrecur_iterator_new
        { freq := icalrecurrencetype_frequency.WEEKLY, interval := 26, count := 6 }
        (converted_start sample_lib sample_view.current_tz { v := 6 }) 3).year
      > sample_view.current_year := by decide
  refine ⟨hr, hmono, hlate, ?_⟩
  obtain ⟨n, hn, _, _, hall⟩ := year_filter_early_exit sample_lib sample_view 7 { v := 6 }
    { freq := icalrecurrencetype_frequency.WEEKLY, interval := 26, count := 6 } 3 hr hmono
    (Or.inr hlate)
  obtain ⟨cw', hadd, hscan, _⟩ := hall 4 (by omega)
  have hnn : ∀ j, j < 6 → sample_lib.icaltime_is_null_time
      (sample_lib.icalrecur_iterator_new
        { freq := icalrecurrencetype_frequency.WEEKLY, interval := 26, count := 6 }
        (converted_start sample_lib sample_view.current_tz { v := 6 }) j) = false := by decide
  have hcw := hscan 6 (by omega) hnn
  refine ⟨cw', hadd, hcw, ?_⟩
  rw [hcw]
  decide

/-! ## Weekly rules -/

theorem scan_all_skip (L : Lib) (cal : Calendar) (ce : CalendarEvent)
    (duration : icaldurationtype) (occs : List icaltimetype) (cw : WeekView)
    (h : ∀ t ∈ occs, ¬ (t.year = cw.current_year ∧ overlaps_view L cw t duration = true)) :
    scan_all L cal ce duration occs cw = cw := by
  induction occs with
  | nil => rfl
  | cons t rest ih =>
    have ht := h t (List.mem_cons_self _ _)
    have hrest : ∀ u ∈ rest,
        ¬ (u.year = cw.current_year ∧ overlaps_view L cw u duration = true) :=
      fun u hu => h u (List.mem_cons_of_mem _ hu)
    simp only [scan_all, List.foldl_cons] at ih ⊢
    have hstep : scan_step L cal ce duration cw t = cw := by
      simp only [scan_step, ht, if_false]
    rw [hstep]
    exact ih hrest

/-- Counterexample to C7 as stated: event `5` of the sample calendar recurs
every week without count, from Friday 14 December 2018, 23:00, to Saturday
01:00; the anchor lies one hour before the window.  The occurrence of 14
December reaches into the window and the occurrence of 21 December starts in
it, so the list of Friday gets two records. -/
theorem weekly_event_across_window_start_twice :
    sample_lib.icalcomponent_get_rrule 5 =
      some { freq := icalrecurrencetype_frequency.WEEKLY, interval := 1, count := 0 } ∧
    ical.as_timet (converted_start sample_lib sample_view.current_tz { v := 5 })
      < sample_view.current_view.start ∧
    (week_view_add_event sample_lib 4 sample_view 7 { v := 5 }).isSome = true ∧
    (week_view_add_event sample_lib 4 sample_view 7 { v := 5 }).map
        (fun w => w.events_week 5) =
      some [{ ev := { v := 5 }, cal := 7, minutes_from := 1380, minutes_to := 1500 },
            { ev := { v := 5 }, cal := 7, minutes_from := 1380, minutes_to := 1500 }] := by
  decide

/-- C7, amended: let the library's overlap test be the one of the
specification (two spans overlap iff they share a piece of positive length),
let the window be seven days long, and let the rule be weekly without count or
until: occurrence `k` spans from `s0 + k` weeks to `len > 0` seconds later, the
calls before `K` return times of years up to `current_year` and call `K`
returns a time of a later year (or the null time).  If the occurrence `k0`
that starts inside the window is of `current_year` and is processed
(`k0 < K`), and no processed occurrence starts before the window and ends
inside it or after it, then the add returns for every iteration bound above
`K`, puts exactly one record, the one of occurrence `k0`, in front of the list
of the weekday of that occurrence, and leaves the other six lists as they
were. -/
theorem weekly_rule_one_record (L : Lib) (cw : WeekView) (cal : Calendar) (ce : CalendarEvent)
    (r : icalrecurrencetype) (K k0 : Nat) (s0 len : Int)
    (hr : L.icalcomponent_get_rrule ce.v = some r)
    (hov : ∀ a b, L.icaltime_span_overlaps a b = true ↔
      max a.start b.start < min a.end_ b.end_)
    (hview : cw.current_view.end_ = cw.current_view.start + 604800)
    (hspan : ∀ k, k < K →
      (L.icaltime_span_new
          (L.icalrecur_iterator_new r (converted_start L cw.current_tz ce) k)
          (L.icaltime_add (L.icalrecur_iterator_new r (converted_start L cw.current_tz ce) k)
            (L.icalcomponent_get_duration ce.v)) 0).start = s0 + 604800 * (k : Int) ∧
      (L.icaltime_span_new
          (L.icalrecur_iterator_new r (converted_start L cw.current_tz ce) k)
          (L.icaltime_add (L.icalrecur_iterator_new r (converted_start L cw.current_tz ce) k)
            (L.icalcomponent_get_duration ce.v)) 0).end_ = s0 + 604800 * (k : Int) + len)
    (hlen : 0 < len)
    (hrun : ∀ k, k < K →
      L.icaltime_is_null_time
          (L.icalrecur_iterator_new r (converted_start L cw.current_tz ce) k) = false ∧
        (L.icalrecur_iterator_new r (converted_start L cw.current_tz ce) k).year
          ≤ cw.current_year)
    (hstop : L.icaltime_is_null_time
          (L.icalrecur_iterator_new r (converted_start L cw.current_tz ce) K) = true ∨
        (L.icalrecur_iterator_new r (converted_start L cw.current_tz ce) K).year
          > cw.current_year)
    (hk0 : k0 < K)
    (hin : cw.current_view.start ≤ s0 + 604800 * (k0 : Int) ∧
      s0 + 604800 * (k0 : Int) < cw.current_view.end_)
    (hyear : (L.icalrecur_iterator_new r (converted_start L cw.current_tz ce) k0).year
      = cw.current_year)
    (hnostraddle : ∀ k, k < K →
      ¬ (s0 + 604800 * (k : Int) < cw.current_view.start ∧
        cw.current_view.start < s0 + 604800 * (k : Int) + len)) :
    ∀ fuel, K < fuel →
      ∃ cw', add_event_from_calendar L fuel cw cal ce = some cw' ∧
        cw'.events_week
            (dow_index L (L.icalrecur_iterator_new r (converted_start L cw.current_tz ce) k0)) =
          recur_widget cal ce (L.icalcomponent_get_duration ce.v)
              (L.icalrecur_iterator_new r (converted_start L cw.current_tz ce) k0) ::
            cw.events_week
              (dow_index L
                (L.icalrecur_iterator_new r (converted_start L cw.current_tz ce) k0)) ∧
        ∀ d, d ≠ dow_index L
            (L.icalrecur_iterator_new r (converted_start L cw.current_tz ce) k0) →
          cw'.events_week d = cw.events_week d := by
  intro fuel hfuel
  have hovk : ∀ k, k < K →
      (overlaps_view L cw (L.icalrecur_iterator_new r (converted_start L cw.current_tz ce) k)
        (L.icalcomponent_get_duration ce.v) = true ↔ k = k0) := by
    intro k hk
    obtain ⟨hs, he⟩ := hspan k hk
    have hns := hnostraddle k hk
    unfold overlaps_view
    rw [hov, hs, he, hview, max_lt_iff, lt_min_iff, lt_min_iff]
    constructor
    · intro h
      by_contra hne
      rcases Nat.lt_or_gt_of_ne hne with hlt | hgt
      · have hki : (k : Int) + 1 ≤ (k0 : Int) := by exact_mod_cast hlt
        omega
      · have hki : (k0 : Int) + 1 ≤ (k : Int) := by exact_mod_cast hgt
        omega
    · intro h
      subst h
      omega
  have hloop := recur_loop_eq_scan L cal ce (L.icalcomponent_get_duration ce.v)
    (L.icalrecur_iterator_new r (converted_start L cw.current_tz ce)) K 0 fuel cw
    (fun j _ hj => hrun j (by omega)) (by simpa using hstop) hfuel
  have hsplit : List.range' 0 K =
      List.range' 0 k0 ++ (k0 :: List.range' (k0 + 1) (K - (k0 + 1))) := by
    have h1 := List.range'_append_1 0 k0 (K - k0)
    rw [Nat.zero_add] at h1
    have h2 : K - k0 + k0 = K := by omega
    rw [h2] at h1
    rw [← h1]
    congr 1
    have h3 : K - k0 = (K - (k0 + 1)) + 1 := by omega
    rw [h3, List.range'_succ]
  have hpre : scan_all L cal ce (L.icalcomponent_get_duration ce.v)
      ((List.range' 0 k0).map (L.icalrecur_iterator_new r (converted_start L cw.current_tz ce)))
      cw = cw := by
    apply scan_all_skip
    intro t ht hc
    obtain ⟨j, hj, rfl⟩ := List.mem_map.mp ht
    have hjr := List.mem_range'_1.mp hj
    have := (hovk j (by omega)).mp hc.2
    omega
  have hmid : scan_step L cal ce (L.icalcomponent_get_duration ce.v) cw
      (L.icalrecur_iterator_new r (converted_start L cw.current_tz ce) k0) =
      push_front cw
        (dow_index L (L.icalrecur_iterator_new r (converted_start L cw.current_tz ce) k0))
        (recur_widget cal ce (L.icalcomponent_get_duration ce.v)
          (L.icalrecur_iterator_new r (converted_start L cw.current_tz ce) k0)) := by
    have ho := (hovk k0 hk0).mpr rfl
    simp [scan_step, hyear, ho]
  have hpost : ∀ cw1 : WeekView, cw1.current_year = cw.current_year →
      cw1.current_view = cw.current_view →
      scan_all L cal ce (L.icalcomponent_get_duration ce.v)
        ((List.range' (k0 + 1) (K - (k0 + 1))).map
          (L.icalrecur_iterator_new r (converted_start L cw.current_tz ce))) cw1 = cw1 := by
    intro cw1 hy hv
    apply scan_all_skip
    intro t ht hc
    obtain ⟨j, hj, rfl⟩ := List.mem_map.mp ht
    have hjr := List.mem_range'_1.mp hj
    have hc2 : overlaps_view L cw
        (L.icalrecur_iterator_new r (converted_start L cw.current_tz ce) j)
        (L.icalcomponent_get_duration ce.v) = true := by
      have := hc.2
      unfold overlaps_view at this ⊢
      rw [hv] at this
      exact this
    have := (hovk j (by omega)).mp hc2
    omega
  refine ⟨push_front cw
    (dow_index L (L.icalrecur_iterator_new r (converted_start L cw.current_tz ce) k0))
    (recur_widget cal ce (L.icalcomponent_get_duration ce.v)
      (L.icalrecur_iterator_new r (converted_start L cw.current_tz ce) k0)), ?_, ?_, ?_⟩
  · simp only [add_event_from_calendar, hr]
    rw [hloop, hsplit, List.map_append, scan_all_append, hpre, List.map_cons]
    have hcons : ∀ (t : icaltimetype) (ts : List icaltimetype),
        scan_all L cal ce (L.icalcomponent_get_duration ce.v) (t :: ts) cw =
          scan_all L cal ce (L.icalcomponent_get_duration ce.v) ts
            (scan_step L cal ce (L.icalcomponent_get_duration ce.v) cw t) := by
      intro t ts
      simp [scan_all]
    rw [hcons, hmid]
    rw [hpost (push_front cw
      (dow_index L (L.icalrecur_iterator_new r (converted_start L cw.current_tz ce) k0))
      (recur_widget cal ce (L.icalcomponent_get_duration ce.v)
        (L.icalrecur_iterator_new r (converted_start L cw.current_tz ce) k0))) rfl rfl]
  · exact push_front_same _ _ _
  · intro d hd
    exact push_front_other _ _ _ _ hd

/-- Witness of C7, amended: event `2` of the sample calendar, every Wednesday
from 12 December 2018, 14:00 to 15:00.  Call `3` returns 2 January 2019, the
occurrence of 19 December starts inside the window, and the list of day `3`
gets its one record, from minute `840` to minute `900`. -/
theorem weekly_rule_one_record_witness :
    sample_lib.icalcomponent_get_rrule 2 =
      some { freq := icalrecurrencetype_frequency.WEEKLY, interval := 1, count := 0 } ∧
    (∀ a b, sample_lib.icaltime_span_overlaps a b = true ↔
      max a.start b.start < min a.end_ b.end_) ∧
    sample_view.current_view.end_ = sample_view.current_view.start + 604800 ∧
    (sample_view.current_view.start ≤
        ical.as_timet (at_time 2018 12 12 14 0) + 604800 * ((1 : Nat) : Int) ∧
      ical.as_timet (at_time 2018 12 12 14 0) + 604800 * ((1 : Nat) : Int)
        < sample_view.current_view.end_) ∧
    ∃ cw', add_event_from_calendar sample_lib 4 sample_view 7 { v := 2 } = some cw' ∧
      cw'.events_week 3 =
        [{ ev := { v := 2 }, cal := 7, minutes_from := 840, minutes_to := 900 }] ∧
      ∀ d, d ≠ 3 → cw'.events_week d = [] := by
  have hr : sample_lib.icalcomponent_get_rrule 2 =
      some { freq := icalrecurrencetype_frequency.WEEKLY, interval := 1, count := 0 } := by
    decide
  have hov : ∀ a b, sample_lib.icaltime_span_overlaps a b = true ↔
      max a.start b.start < min a.end_ b.end_ := by
    intro a b
    show ical.span_overlaps a b = true ↔ _
    unfold ical.span_overlaps
    exact decide_eq_true_iff
  have hview : sample_view.current_view.end_ = sample_view.current_view.start + 604800 := by
    decide
  have hin : sample_view.current_view.start ≤
        ical.as_timet (at_time 2018 12 12 14 0) + 604800 * ((1 : Nat) : Int) ∧
      ical.as_timet (at_time 2018 12 12 14 0) + 604800 * ((1 : Nat) : Int)
        < sample_view.current_view.end_ := by decide
  refine ⟨hr, hov, hview, hin, ?_⟩
  obtain ⟨cw', hadd, h1, h2⟩ := weekly_rule_one_record sample_lib sample_view 7 { v := 2 }
    { freq := icalrecurrencetype_frequency.WEEKLY, interval := 1, count := 0 } 3 1
    (ical.as_timet (at_time 2018 12 12 14 0)) 3600 hr hov hview (by decide) (by decide)
    (by decide) (Or.inr (by decide)) (by decide) hin (by decide) (by decide) 4 (by decide)
  have hd : dow_index sample_lib (sample_lib.icalrecur_iterator_new
      { freq := icalrecurrencetype_frequency.WEEKLY, interval := 1, count := 0 }
      (converted_start sample_lib sample_view.current_tz { v := 2 }) 1) = 3 := by decide
  rw [hd] at h1 h2
  refine ⟨cw', hadd, ?_, ?_⟩
  · rw [h1]
    decide
  · intro d hdne
    rw [h2 d hdne]
    rfl

/-! ## Removal of recurring events -/

theorem countP_unlink_first (ce : CalendarEvent) (l : List EventWidget) :
    l.countP (fun w => decide (w.ev = ce)) ≤
      (unlink_first ce l).countP (fun w => decide (w.ev = ce)) + 1 := by
  induction l with
  | nil => simp [unlink_first]
  | cons w rest ih =>
    by_cases h : w.ev = ce
    · simp [unlink_first, h, List.countP_cons]
    · simp only [unlink_first, h, if_false, List.countP_cons, decide_False]
      simpa using ih

theorem records_of_remove (L : Lib) (wv : WeekView) (ce : CalendarEvent) :
    records_of wv ce ≤ records_of (week_view_remove_event L wv ce) ce + 1 := by
  unfold records_of
  have hpoint : ∀ d : Fin 7,
      (wv.events_week d).countP (fun w => decide (w.ev = ce)) ≤
        ((week_view_remove_event L wv ce).events_week d).countP (fun w => decide (w.ev = ce)) +
          (if d = dow_index L (converted_start L wv.current_tz ce) then 1 else 0) := by
    intro d
    by_cases hd : d = dow_index L (converted_start L wv.current_tz ce)
    · subst hd
      rw [remove_event_same, if_pos rfl]
      exact countP_unlink_first ce _
    · rw [remove_event_other L wv ce d hd, if_neg hd]
      omega
  calc Finset.univ.sum (fun d : Fin 7 => (wv.events_week d).countP (fun w => decide (w.ev = ce)))
      ≤ Finset.univ.sum (fun d : Fin 7 =>
          ((week_view_remove_event L wv ce).events_week d).countP
              (fun w => decide (w.ev = ce)) +
            (if d = dow_index L (converted_start L wv.current_tz ce) then 1 else 0)) :=
        Finset.sum_le_sum (fun d _ => hpoint d)
    _ = Finset.univ.sum (fun d : Fin 7 =>
          ((week_view_remove_event L wv ce).events_week d).countP
            (fun w => decide (w.ev = ce))) + 1 := by
        rw [Finset.sum_add_distrib]
        simp

/-- C9: `week_view_remove_event` looks only at the list of the day of the week
of the converted anchor start and unlinks at most one record.  So when the add
of a recurring event has inserted `n ≥ 2` records, at least `n - 1` records
with the handle of the event are still in the index after the removal, and
every list other than the one of the anchor's day is untouched. -/
theorem recurring_event_not_fully_removed (L : Lib) (fuel : Nat) (wv wv' : WeekView)
    (cal : Calendar) (ce : CalendarEvent) (n : Nat)
    (_hrec : (L.icalcomponent_get_rrule ce.v).isSome = true)
    (_hadd : week_view_add_event L fuel wv cal ce = some wv')
    (hn : records_of wv' ce = records_of wv ce + n) (h2 : 2 ≤ n) :
    n - 1 ≤ records_of (week_view_remove_event L wv' ce) ce ∧
    records_of wv' ce ≤ records_of (week_view_remove_event L wv' ce) ce + 1 ∧
    ∀ d, d ≠ dow_index L (converted_start L wv'.current_tz ce) →
      (week_view_remove_event L wv' ce).events_week d = wv'.events_week d := by
  have hle := records_of_remove L wv' ce
  refine ⟨by omega, hle, fun d hd => remove_event_other L wv' ce d hd⟩

/-- Witness of C9: the daily event of the sample calendar puts five records in
the empty sample view, Monday to Friday; the removal takes out the record of
Monday, the day of the anchor, and the four others stay. -/
theorem recurring_event_not_fully_removed_witness :
    (sample_lib.icalcomponent_get_rrule 3).isSome = true ∧
    ∃ wv', week_view_add_event sample_lib 16 sample_view 7 { v := 3 } = some wv' ∧
      records_of wv' { v := 3 } = records_of sample_view { v := 3 } + 5 ∧
      5 - 1 ≤ records_of (week_view_remove_event sample_lib wv' { v := 3 }) { v := 3 } ∧
      (week_view_remove_event sample_lib wv' { v := 3 }).events_week 1 = [] ∧
      (week_view_remove_event sample_lib wv' { v := 3 }).events_week 2 =
        [{ ev := { v := 3 }, cal := 7, minutes_from := 480, minutes_to := 510 }] := by
  have hrec : (sample_lib.icalcomponent_get_rrule 3).isSome = true := by decide
  have hr : sample_lib.icalcomponent_get_rrule 3 =
      some { freq := icalrecurrencetype_frequency.DAILY, interval := 1, count := 0 } := by decide
  have hloop := recur_loop_eq_scan sample_lib 7 { v := 3 }
    (sample_lib.icalcomponent_get_duration 3)
    (sample_lib.icalrecur_iterator_new
      { freq := icalrecurrencetype_frequency.DAILY, interval := 1, count := 0 }
      (converted_start sample_lib sample_view.current_tz { v := 3 })) 15 0 16 sample_view
    (by decide) (Or.inr (by decide)) (by decide)
  have hadd : week_view_add_event sample_lib 16 sample_view 7 { v := 3 } =
      some (scan_all sample_lib 7 { v := 3 } (sample_lib.icalcomponent_get_duration 3)
        ((List.range' 0 15).map (sample_lib.icalrecur_iterator_new
          { freq := icalrecurrencetype_frequency.DAILY, interval := 1, count := 0 }
          (converted_start sample_lib sample_view.current_tz { v := 3 }))) sample_view) := by
    simp only [week_view_add_event, add_event_from_calendar, hr]
    exact hloop
  have hn : records_of (scan_all sample_lib 7 { v := 3 } (sample_lib.icalcomponent_get_duration 3)
        ((List.range' 0 15).map (sample_lib.icalrecur_iterator_new
          { freq := icalrecurrencetype_frequency.DAILY, interval := 1, count := 0 }
          (converted_start sample_lib sample_view.current_tz { v := 3 }))) sample_view)
        { v := 3 } = records_of sample_view { v := 3 } + 5 := by decide
  refine ⟨hrec, _, hadd, hn, ?_, by decide, by decide⟩
  exact (recurring_event_not_fully_removed sample_lib 16 sample_view _ 7 { v := 3 } 5 hrec hadd
    hn (by decide)).1

/-! ## The calendar and the display window -/

theorem ical_leap_iff (y : Int) :
    ical.is_leap_year y = true ↔ (y % 4 = 0 ∧ y % 100 ≠ 0) ∨ y % 400 = 0 := by
  simp [ical.is_leap_year]

theorem ical_year_length (y : Int) :
    ical.days_from_civil (y + 1) 1 1 =
      ical.days_from_civil y 1 1 + ical.days_in_year_passed_month (ical.is_leap_year y) 12 := by
  by_cases hl : ical.is_leap_year y = true
  · have h := (ical_leap_iff y).mp hl
    simp only [ical.days_from_civil, ical.days_in_year_passed_month, hl]
    norm_num
    rcases h with ⟨h4, h100⟩ | h400
    · omega
    · omega
  · have h4 : ¬ (y % 4 = 0 ∧ y % 100 ≠ 0) := fun hh => hl ((ical_leap_iff y).mpr (Or.inl hh))
    have h400 : ¬ (y % 400 = 0) := fun hh => hl ((ical_leap_iff y).mpr (Or.inr hh))
    have hl' : ical.is_leap_year y = false := by simpa using hl
    simp only [ical.days_from_civil, ical.days_in_year_passed_month, hl']
    norm_num
    by_cases h : y % 4 = 0
    · have h100 : y % 100 = 0 := by
        by_contra hne
        exact h4 ⟨h, hne⟩
      omega
    · omega

theorem ical_days_in_year (y m d : Int) (h1 : 1 ≤ m) (h12 : m ≤ 12) :
    ical.days_from_civil y m d =
      ical.days_from_civil y 1 1 +
        ical.days_in_year_passed_month (ical.is_leap_year y) (m - 1) + d - 1 := by
  by_cases hl : ical.is_leap_year y = true
  · have h := (ical_leap_iff y).mp hl
    rw [hl]
    rcases h with ⟨h4, h100⟩ | h400
    · interval_cases m <;>
        simp only [ical.days_from_civil, ical.days_in_year_passed_month] <;>
        norm_num <;> omega
    · interval_cases m <;>
        simp only [ical.days_from_civil, ical.days_in_year_passed_month] <;>
        norm_num <;> omega
  · have h4 : ¬ (y % 4 = 0 ∧ y % 100 ≠ 0) := fun hh => hl ((ical_leap_iff y).mpr (Or.inl hh))
    have h400 : ¬ (y % 400 = 0) := fun hh => hl ((ical_leap_iff y).mpr (Or.inr hh))
    have hl' : ical.is_leap_year y = false := by simpa using hl
    rw [hl']
    by_cases h : y % 4 = 0
    · have h100 : y % 100 = 0 := by
        by_contra hne
        exact h4 ⟨h, hne⟩
      interval_cases m <;>
        simp only [ical.days_from_civil, ical.days_in_year_passed_month] <;>
        norm_num <;> omega
    · interval_cases m <;>
        simp only [ical.days_from_civil, ical.days_in_year_passed_month] <;>
        norm_num <;> omega

theorem ical_month_of_doy_range (leap : Bool) (doy : Int) :
    1 ≤ ical.month_of_doy leap doy ∧ ical.month_of_doy leap doy ≤ 12 := by
  unfold ical.month_of_doy
  cases leap <;> simp only [ical.days_in_year_passed_month] <;> norm_num <;>
    split_ifs <;> exact ⟨by norm_num, by norm_num⟩

theorem ical_from_day_of_year_days (doy y : Int) :
    ical.days_from_civil (ical.from_day_of_year doy y).year (ical.from_day_of_year doy y).month
        (ical.from_day_of_year doy y).day =
      ical.days_from_civil y 1 1 + doy - 1 := by
  have hprev := ical_year_length (y - 1)
  have hnext := ical_year_length y
  rw [show y - 1 + 1 = y by ring] at hprev
  by_cases hlow : doy < 1
  · have hr := ical_month_of_doy_range (ical.is_leap_year (y - 1))
      (doy + ical.days_in_year_passed_month (ical.is_leap_year (y - 1)) 12)
    simp only [ical.from_day_of_year, hlow, if_true]
    rw [ical_days_in_year _ _ _ hr.1 hr.2]
    omega
  · by_cases hhigh : doy > ical.days_in_year_passed_month (ical.is_leap_year y) 12
    · have hr := ical_month_of_doy_range (ical.is_leap_year (y + 1))
        (doy - ical.days_in_year_passed_month (ical.is_leap_year y) 12)
      simp only [ical.from_day_of_year, hlow, hhigh, if_true, if_false]
      rw [ical_days_in_year _ _ _ hr.1 hr.2]
      omega
    · have hr := ical_month_of_doy_range (ical.is_leap_year y) doy
      simp only [ical.from_day_of_year, hlow, hhigh, if_false]
      rw [ical_days_in_year _ _ _ hr.1 hr.2]
      omega

/-- In the concrete calendar the window of `week_view_new` starts on a
Saturday and is seven days long, whatever day today is. -/
theorem ical_window_start_saturday (heap : Nat → ical.icalcomponent) (today : icaltimetype)
    (tz : icaltimezone) (h1 : 1 ≤ today.month) (h12 : today.month ≤ 12) :
    (week_view_new (ical heap) today tz).current_view.start =
      ical.as_timet (ical.from_day_of_year
        (ical.day_of_year today - ical.day_of_week today) today.year) ∧
    ical.day_of_week (ical.from_day_of_year
        (ical.day_of_year today - ical.day_of_week today) today.year) - 1 = 6 ∧
    (week_view_new (ical heap) today tz).current_view.end_ =
      (week_view_new (ical heap) today tz).current_view.start + 7 * 24 * 3600 := by
  have hd := ical_days_in_year today.year today.month today.day h1 h12
  have hs := ical_from_day_of_year_days
    (ical.day_of_year today - ical.day_of_week today) today.year
  have he := ical_from_day_of_year_days
    (ical.day_of_year today - ical.day_of_week today + 7) today.year
  refine ⟨rfl, ?_, ?_⟩
  · unfold ical.day_of_week at hs ⊢
    rw [hs]
    unfold ical.day_of_year
    omega
  · show ical.as_timet (ical.from_day_of_year
        (ical.day_of_year today - ical.day_of_week today + 7) today.year) =
      ical.as_timet (ical.from_day_of_year
        (ical.day_of_year today - ical.day_of_week today) today.year) + 7 * 24 * 3600
    have hh : ∀ x y : Int, (ical.from_day_of_year x y).hour = 0 := fun _ _ => rfl
    have hm : ∀ x y : Int, (ical.from_day_of_year x y).minute = 0 := fun _ _ => rfl
    have hsec : ∀ x y : Int, (ical.from_day_of_year x y).second = 0 := fun _ _ => rfl
    unfold ical.as_timet
    rw [hs, he, hh, hm, hsec, hh, hm, hsec]
    omega

/-- C8, evaluated where it fails: today is Wednesday 19 December 2018, day
`353` of the year, with `icaltime_day_of_week = 4`.  `week_view_new` starts the
window at day `353 - 4 = 349`, which is Saturday 15 December
(`icaltime_day_of_week - 1 = 6`), and ends it at day `356`, Saturday 22
December; the Sunday of the week of today is 16 December, day `350`. -/
theorem window_starts_on_saturday :
    sample_lib.icaltime_day_of_year sample_today = 353 ∧
    sample_lib.icaltime_day_of_week sample_today = 4 ∧
    sample_lib.icaltime_from_day_of_year
        (sample_lib.icaltime_day_of_year sample_today -
          sample_lib.icaltime_day_of_week sample_today) sample_today.year
      = at_time 2018 12 15 0 0 ∧
    (week_view_new sample_lib sample_today 0).current_view =
      sample_lib.icaltime_span_new (at_time 2018 12 15 0 0) (at_time 2018 12 22 0 0) 0 ∧
    sample_lib.icaltime_day_of_week (at_time 2018 12 15 0 0) - 1 = 6 ∧
    dow_index sample_lib (at_time 2018 12 15 0 0) = 6 ∧
    dow_index sample_lib (at_time 2018 12 16 0 0) = 0 := by
  decide

/-! ## Geometry -/

theorem trunc_eq_of_nonneg (q : ℚ) (n : Int) (h0 : 0 ≤ q) (h1 : (n : ℚ) ≤ q)
    (h2 : q < (n : ℚ) + 1) : trunc q = n := by
  unfold trunc
  rw [if_pos h0]
  exact Int.floor_eq_iff.mpr ⟨h1, h2⟩

/-- C10, evaluated where it fails: the view is 113 pixels wide and the click is
at `x = 67.5`, between the sidebar and the right edge.  `on_press_event`
computes day `1`, while `week_view_draw`, whose columns are `day_width = 8`
pixels wide, paints day `2` from `66.5` to `74.5`; a press on the record drawn
for Tuesday at 09:30 is searched in the list of Monday and selects nothing. -/
theorem press_day_differs_from_drawn_day :
    tuesday_view.width = 113 ∧
    (SIDEBAR_WIDTH ≤ 135 / 2 ∧ (135 / 2 : ℚ) < (tuesday_view.width : ℚ)) ∧
    press_dow tuesday_view (135 / 2) = 1 ∧
    day_width tuesday_view = 8 ∧
    (draw_day_x tuesday_view 2 ≤ 135 / 2 ∧ (135 / 2 : ℚ) < draw_day_x tuesday_view 3) ∧
    press_minutes tuesday_view (421 / 2) = 570 ∧
    tuesday_view.events_week 2 =
      [{ ev := { v := 9 }, cal := 7, minutes_from := 540, minutes_to := 600 }] ∧
    on_press_event tuesday_view (135 / 2) (421 / 2) = some (Press.selected none) := by
  have hw : tuesday_view.width = 113 := rfl
  have hx : tuesday_view.x = 0 := rfl
  have hs : tuesday_view.scroll_pos = 410 := rfl
  have hdow : press_dow tuesday_view (135 / 2) = 1 := by
    unfold press_dow
    rw [hw]
    apply trunc_eq_of_nonneg <;> norm_num [SIDEBAR_WIDTH]
  have hdw : day_width tuesday_view = 8 := by
    unfold day_width
    rw [hw]
    apply trunc_eq_of_nonneg <;> norm_num [SIDEBAR_WIDTH]
  have hmin : press_minutes tuesday_view (421 / 2) = 570 := by
    unfold press_minutes
    rw [hs]
    apply trunc_eq_of_nonneg <;> norm_num [HEADER_HEIGHT, HALFHOUR_HEIGHT]
  have hl1 : tuesday_view.events_week 1 = [] := by decide
  refine ⟨hw, ?_, hdow, hdw, ?_, hmin, by decide, ?_⟩
  · rw [hw]
    norm_num [SIDEBAR_WIDTH]
  · unfold draw_day_x
    rw [hdw, hx]
    norm_num [SIDEBAR_WIDTH]
  · have hguard : ¬ ((135 / 2 : ℚ) < SIDEBAR_WIDTH ∨ (421 / 2 : ℚ) < HEADER_HEIGHT) := by
      norm_num [SIDEBAR_WIDTH, HEADER_HEIGHT]
    unfold on_press_event
    rw [if_neg hguard]
    simp only [hdow, hmin]
    simp [hl1, find_hit]

/-- The day computed by `on_press_event` stays inside the array: for a click
between the sidebar and the right edge it lies in `0..6`. -/
theorem press_dow_range (wv : WeekView) (x : ℚ) (hw : SIDEBAR_WIDTH < (wv.width : ℚ))
    (hx1 : SIDEBAR_WIDTH ≤ x) (hx2 : x < (wv.width : ℚ)) :
    0 ≤ press_dow wv x ∧ press_dow wv x ≤ 6 := by
  have hden : 0 < (wv.width : ℚ) - SIDEBAR_WIDTH := by linarith
  have hq0 : 0 ≤ 7 * (x - SIDEBAR_WIDTH) / ((wv.width : ℚ) - SIDEBAR_WIDTH) := by
    apply div_nonneg _ hden.le
    linarith
  have hq7 : 7 * (x - SIDEBAR_WIDTH) / ((wv.width : ℚ) - SIDEBAR_WIDTH) < 7 := by
    rw [div_lt_iff₀ hden]
    linarith
  unfold press_dow trunc
  rw [if_pos hq0]
  constructor
  · exact Int.floor_nonneg.mpr hq0
  · have hlt : ⌊7 * (x - SIDEBAR_WIDTH) / ((wv.width : ℚ) - SIDEBAR_WIDTH)⌋ < 7 := by
      rw [Int.floor_lt]
      exact_mod_cast hq7
    omega

end Focal
